import Mathlib

/-
  Shallow embedding of the translate-storage PO reader (src/lib.rs, src/po.rs).

  The embedding follows the Rust source line by line:
  * the data model (Count, Message, Origin, State, Unit, Error) comes from lib.rs;
  * the line classifier models the anchored regular expressions MESSAGE_RE,
    COMMENT_RE and UNESCAPE_RE of po.rs together with parse_po_line, including
    the exact alternation spelled in the source (msgctxt|msgid|msgif_plural|
    msgstr(?:\[[012345]\])?) and the fact that the source calls Regex::replace,
    which rewrites only the leftmost match;
  * LineIter is modelled by materializing its whole output sequence (the code is
    a pure, finite transformation of the underlying line list);
  * the Peekable-based MsgParser methods (parse_comments, parse_msg, expected)
    and PoReader (parse_unit, next_unit, parse_po_header, new, next) are modelled
    with an explicit list of classified lines as the lookahead stream.
    A Rust panic (unreachable/assert/explicit panic) is modelled as the value
    none of an Option-typed result.
-/

namespace Po

/-- Plural categories, from lib.rs (enum Count). The order of the constructors is
the derived order used by the BTreeMap. -/
inductive Count
  | Zero
  | One
  | Two
  | Few
  | Many
  | Other
deriving DecidableEq, Repr

/-- Numeric rank of a Count, realizing the derived Ord of the Rust enum. -/
def countIdx : Count → Nat
  | .Zero => 0
  | .One => 1
  | .Two => 2
  | .Few => 3
  | .Many => 4
  | .Other => 5

/-- Note origins, from lib.rs (enum Origin). -/
inductive Origin
  | Developer
  | Translator
  | Tag (name : String)
deriving DecidableEq, Repr

/-- Translation states, from lib.rs (enum State). -/
inductive State
  | Empty
  | NeedsWork
  | Final
deriving DecidableEq, Repr

/-- Messages, from lib.rs (enum Message). A BTreeMap from Count to String is
modelled as an association list sorted strictly by countIdx. -/
inductive Message
  | Empty
  | Singular (s : String)
  | Plural (m : List (Count × String))
deriving DecidableEq, Repr

/-- BTreeMap::insert on the sorted association list model. -/
def btreeInsert (k : Count) (v : String) : List (Count × String) → List (Count × String)
  | [] => [(k, v)]
  | (k2, v2) :: rest =>
    if countIdx k < countIdx k2 then (k, v) :: (k2, v2) :: rest
    else if countIdx k = countIdx k2 then (k, v) :: rest
    else (k2, v2) :: btreeInsert k v rest

/-- Message::is_empty, from lib.rs. -/
def Message.is_empty : Message → Bool
  | .Empty => true
  | _ => false

/-- Message::is_singular, from lib.rs. -/
def Message.is_singular : Message → Bool
  | .Singular _ => true
  | _ => false

/-- Message::is_plural, from lib.rs. -/
def Message.is_plural : Message → Bool
  | .Plural _ => true
  | _ => false

/-- Message::is_blank, from lib.rs. -/
def Message.is_blank : Message → Bool
  | .Empty => true
  | .Singular s => s = ""
  | .Plural m => m.all fun kv => kv.2 = ""

/-- Message::singular, from lib.rs. -/
def Message.singular : Message → Option String
  | .Singular s => some s
  | _ => none

/-- Translation units, from lib.rs (struct Unit), with the private field names of
the source. -/
structure Unit where
  _context : Option String
  _source : Message
  _target : Message
  _prev_context : Option String
  _prev_source : Message
  _notes : List (Origin × String)
  _locations : List String
  _state : State
  _obsolete : Bool
deriving DecidableEq, Repr

/-- Unit::default: every field takes its Default value (None, Message::Empty,
empty vectors, State::Empty, false). -/
def Unit.default : Unit :=
  ⟨none, .Empty, .Empty, none, .Empty, [], [], .Empty, false⟩

/-- Errors, from lib.rs (enum Error). The io::Error payload carried by Error::Io
is opaque to this crate and is modelled as a number. -/
inductive Error
  | Io (line : Nat) (cause : Nat)
  | Parse (line : Nat) (got : Option String) (exp : List String)
deriving DecidableEq, Repr

/-- Classified lines, from po.rs (enum PoLine). The second field of Message and
Continuation is the obsolete/previous marker captured by group 1 of MESSAGE_RE. -/
inductive PoLine
  | Comment (n : Nat) (kind : Char) (content : String)
  | Message (n : Nat) (marker : String) (tag : String) (text : String)
  | Continuation (n : Nat) (marker : String) (text : String)
  | Blank
deriving DecidableEq, Repr

/-- The Unicode White_Space property: the character class matched by the regex
class backslash-s and tested by Rust char::is_whitespace. -/
def isWs (c : Char) : Bool :=
  c.val = 9 || c.val = 10 || c.val = 11 || c.val = 12 || c.val = 13 || c.val = 32 ||
  c.val = 0x85 || c.val = 0xA0 || c.val = 0x1680 ||
  (0x2000 ≤ c.val && c.val ≤ 0x200A) ||
  c.val = 0x2028 || c.val = 0x2029 || c.val = 0x202F || c.val = 0x205F || c.val = 0x3000

/-- Greedy match of the regex piece backslash-s-star. -/
def dropWs (cs : List Char) : List Char := cs.dropWhile isWs

/-- str::starts_with on the string model. -/
def strStarts (s p : String) : Bool := p.toList.isPrefixOf s.toList

/-- str::ends_with on the string model. -/
def strEnds (s p : String) : Bool := p.toList.isSuffixOf s.toList

/-- Match a literal string at the head of the input, returning the remainder. -/
def dropLit : List Char → List Char → Option (List Char)
  | [], cs => some cs
  | _ :: _, [] => none
  | p :: ps, c :: cs => if c = p then dropLit ps cs else none

/-- Match the tail piece of MESSAGE_RE: backslash-s-star, a double quote, the
capturing group for the quoted body, a closing double quote, backslash-s-star,
end of line. Returns the body captured by group 3. The dot of the group matches
any character except a newline, and the group is greedy, so the closing quote is
the last double quote of the line and only whitespace may follow it. -/
def matchRest (cs : List Char) : Option (List Char) :=
  match dropWs cs with
  | '"' :: rest =>
    match (rest.reverse.dropWhile isWs) with
    | '"' :: rcap => if rcap.contains '\n' then none else some rcap.reverse
    | _ => none
  | _ => none

/-- One alternation branch of group 2 of MESSAGE_RE: the literal tag followed by
the tail piece. -/
def tagBranch (lit : String) (cs : List Char) : Option (String × List Char) :=
  (dropLit lit.toList cs).bind fun rest =>
    (matchRest rest).map fun cap => (lit, cap)

/-- The msgstr branch of group 2 of MESSAGE_RE: msgstr optionally followed by a
bracketed digit 0..5. The optional group is greedy, so the bracketed form is
tried first. -/
def msgstrBranch (cs : List Char) : Option (String × List Char) :=
  (dropLit "msgstr".toList cs).bind fun rest =>
    match rest with
    | '[' :: d :: ']' :: rest2 =>
      if d = '0' ∨ d = '1' ∨ d = '2' ∨ d = '3' ∨ d = '4' ∨ d = '5' then
        match matchRest rest2 with
        | some cap => some ("msgstr[" ++ d.toString ++ "]", cap)
        | none => (matchRest rest).map fun cap => ("msgstr", cap)
      else (matchRest rest).map fun cap => ("msgstr", cap)
    | _ => (matchRest rest).map fun cap => ("msgstr", cap)

/-- Group 2 of MESSAGE_RE, exactly as spelled in po.rs:
msgctxt or msgid or msgif_plural or msgstr with an optional bracketed index.
The alternation is tried left to right. -/
def tagAlternation (cs : List Char) : Option (String × List Char) :=
  tagBranch "msgctxt" cs <|> tagBranch "msgid" cs <|>
  tagBranch "msgif_plural" cs <|> msgstrBranch cs

/-- Group 1 of MESSAGE_RE: an optional marker, a hash optionally followed by a
tilde and then optionally a pipe, matched greedily. When the group does not
participate the code substitutes the empty string. Nothing the rest of the
pattern can match begins with a hash, tilde or pipe, so the greedy choice is
exact. -/
def matchMarker : List Char → String × List Char
  | '#' :: '~' :: '|' :: rest => ("#~|", rest)
  | '#' :: '~' :: rest => ("#~", rest)
  | '#' :: '|' :: rest => ("#|", rest)
  | '#' :: rest => ("#", rest)
  | cs => ("", cs)

/-- The whole of MESSAGE_RE applied to a line: returns the marker of group 1,
the optional tag of group 2 and the quoted body of group 3. -/
def messageRe (line : List Char) : Option (String × Option String × List Char) :=
  let (marker, cs1) := matchMarker (dropWs line)
  let cs2 := dropWs cs1
  match tagAlternation cs2 with
  | some (t, cap) => some (marker, some t, cap)
  | none => (matchRest cs2).map fun cap => (marker, none, cap)

/-- COMMENT_RE applied to a line: a hash after optional whitespace, an optional
kind character (colon, dot or comma, anything else standing for a translator
comment, represented as a space), then whitespace and the free text captured by
the greedy dot-star, which stops at a newline. -/
def commentRe (line : List Char) : Option (Char × List Char) :=
  match dropWs line with
  | '#' :: rest =>
    match rest with
    | c :: r2 =>
      if c = ':' ∨ c = '.' ∨ c = ',' then some (c, (dropWs r2).takeWhile fun x => x ≠ '\n')
      else some (' ', (dropWs rest).takeWhile fun x => x ≠ '\n')
    | [] => some (' ', [])
  | _ => none

/-- The UNESCAPE_MAP of po.rs: the five two-character escapes. -/
def escMap (c : Char) : Option Char :=
  if c = 'r' then some '\r'
  else if c = 't' then some '\t'
  else if c = 'n' then some '\n'
  else if c = '"' then some '"'
  else if c = '\\' then some '\\'
  else none

/-- UNESCAPE_RE.replace on the character list: po.rs calls Regex::replace, which
rewrites only the leftmost match of the pattern (a backslash followed by one of
r, t, n, double quote, backslash); everything after that first match is copied
unchanged. -/
def unescapeChars : List Char → List Char
  | '\\' :: c :: rest =>
    match escMap c with
    | some r => r :: rest
    | none => '\\' :: unescapeChars (c :: rest)
  | c :: rest => c :: unescapeChars rest
  | [] => []

/-- The unescape step applied to a captured quoted body. -/
def unescape (s : String) : String := String.mk (unescapeChars s.toList)

/-- parse_po_line from po.rs: Blank for all-whitespace lines, then MESSAGE_RE
(tag present gives Message with the pipe-normalized tag, tag absent gives
Continuation), then COMMENT_RE, otherwise a syntax failure. -/
def parse_po_line (line : String) (n : Nat) : Except PUnit.{1} PoLine :=
  if line.toList.all isWs then .ok .Blank
  else
    match messageRe line.toList with
    | some (marker, some t, cap) =>
      .ok (.Message n marker (if strEnds marker "|" then "|" ++ t else t)
            (String.mk (unescapeChars cap)))
    | some (marker, none, cap) =>
      .ok (.Continuation n marker (String.mk (unescapeChars cap)))
    | none =>
      match commentRe line.toList with
      | some (k, txt) => .ok (.Comment n k (String.mk txt))
      | none => .error PUnit.unit

/-- LineIter from po.rs, with its whole output materialized: the underlying
lines iterator is a list whose error elements are I/O failures. Each text line
is numbered and classified; Blank classifications are skipped, failures of the
classifier are wrapped as Parse errors carrying the raw line, and an I/O failure
is forwarded as Error::Io tagged with the line counter plus one (the counter is
not advanced in that case). -/
def line_items : Nat → List (Except Nat String) → List (Except Error PoLine)
  | _, [] => []
  | n, .error e :: rest => .error (.Io (n + 1) e) :: line_items n rest
  | n, .ok s :: rest =>
    match parse_po_line s (n + 1) with
    | .ok .Blank => line_items (n + 1) rest
    | .ok p => .ok p :: line_items (n + 1) rest
    | .error _ => .error (.Parse (n + 1) (some s) []) :: line_items (n + 1) rest

/-- str::split on a single separator character: empty pieces are kept, and the
empty string splits into one empty piece. -/
def splitChar (sep : Char) : List Char → List (List Char)
  | [] => [[]]
  | x :: rest =>
    if x = sep then [] :: splitChar sep rest
    else
      match splitChar sep rest with
      | h :: t => (x :: h) :: t
      | [] => [[x]]

/-- str::split lifted to the string model. -/
def splitStr (sep : Char) (s : String) : List String :=
  (splitChar sep s.toList).map String.mk

/-- str::trim: remove leading and trailing whitespace. -/
def rustTrim (s : String) : String :=
  String.mk (((s.toList.dropWhile isWs).reverse.dropWhile isWs).reverse)

/-- str::find for a character: the part before the first occurrence and the part
after it, or none when the character does not occur. -/
def splitFirst (sep : Char) : List Char → Option (List Char × List Char)
  | [] => none
  | x :: rest =>
    if x = sep then some ([], rest)
    else (splitFirst sep rest).map fun pr => (x :: pr.1, pr.2)

/-- str::split(char::is_whitespace) followed by filtering out empty pieces, as
used for location comments. The accumulator carries the current word reversed. -/
def wsplitAux : List Char → List Char → List String
  | [], acc => if acc.isEmpty then [] else [String.mk acc.reverse]
  | c :: rest, acc =>
    if isWs c then
      if acc.isEmpty then wsplitAux rest [] else String.mk acc.reverse :: wsplitAux rest []
    else wsplitAux rest (c :: acc)

/-- The non-empty whitespace-separated pieces of a string. -/
def splitWsNE (s : String) : List String := wsplitAux s.toList []

/-- Whether a flag comment body lists the fuzzy flag: split on commas, trim each
piece, compare with the literal fuzzy. -/
def hasFuzzyFlag (s : String) : Bool :=
  (splitStr ',' s).any fun f => rustTrim f = "fuzzy"

/-- MsgParser::parse_comments from po.rs: while the lookahead is a successfully
classified comment, consume it and update the unit according to its kind
(comma: flag list, possibly setting the fuzzy state; colon: locations; dot:
developer note; space: translator note). A comment of any other kind hits the
unreachable arm of the source, modelled as none. -/
def parse_comments : List (Except Error PoLine) → Unit → Option (List (Except Error PoLine) × Unit)
  | .ok (.Comment _ k s) :: rest, u =>
    if k = ',' then
      parse_comments rest (if hasFuzzyFlag s then { u with _state := .NeedsWork } else u)
    else if k = ':' then
      parse_comments rest { u with _locations := u._locations ++ splitWsNE s }
    else if k = '.' then
      parse_comments rest { u with _notes := u._notes ++ [(.Developer, s)] }
    else if k = ' ' then
      parse_comments rest { u with _notes := u._notes ++ [(.Translator, s)] }
    else none
  | ls, u => some (ls, u)

/-- The continuation loop of MsgParser::parse_msg: an error in the lookahead is
taken out of the stream and returned; a continuation whose marker equals the
marker of the opening tag is consumed and its text appended; anything else ends
the loop with the stream untouched. -/
def parseMsgCont (marker : String) (acc : String) :
    List (Except Error PoLine) → Except Error String × List (Except Error PoLine)
  | .error e :: rest => (.error e, rest)
  | .ok (.Continuation n q s) :: rest =>
    if q = marker then parseMsgCont marker (acc ++ s) rest
    else (.ok acc, .ok (.Continuation n q s) :: rest)
  | ls => (.ok acc, ls)

/-- MsgParser::parse_msg from po.rs: an error in the lookahead is taken and
returned; a message tag with the requested tag name whose obsolete marker state
matches the unit's obsolete flag is consumed together with the matching
continuation lines; any other lookahead leaves the stream untouched and yields
no text. -/
def parse_msg (tag : String) (u : Unit) :
    List (Except Error PoLine) → Except Error (Option String) × List (Except Error PoLine)
  | .error e :: rest => (.error e, rest)
  | .ok (.Message n p t s) :: rest =>
    if t = tag ∧ strStarts p "#~" = u._obsolete then
      match parseMsgCont p s rest with
      | (.ok str, ls) => (.ok (some str), ls)
      | (.error e, ls) => (.error e, ls)
    else (.ok none, .ok (.Message n p t s) :: rest)
  | ls => (.ok none, ls)

/-- MsgParser::expected from po.rs: build a Parse error from the lookahead
token, carrying the expected names; at end of stream report the clean end of
the catalogue. The second field of a Message pattern in the source is the
marker, so the error text for a tag line is the marker, not the tag. The
catch-all arm of the source panics, modelled as none. -/
def expected (exp : List String) : List (Except Error PoLine) → Option (Except Error (Option Unit))
  | .ok (.Message n p _ _) :: _ => some (.error (.Parse n (some p) exp))
  | .ok (.Continuation n _ _) :: _ => some (.error (.Parse n (some "\"") exp))
  | .ok (.Comment n c _) :: _ => some (.error (.Parse n (some ("#" ++ c.toString)) exp))
  | [] => some (.ok none)
  | _ => none

/-- PoReader::make_source from po.rs. -/
def make_source : Option String → Option String → Message
  | none, _ => .Empty
  | some mid, none => .Singular mid
  | some mid, some pl => .Plural (btreeInsert Count.Other pl (btreeInsert Count.One mid []))

/-- The TAGS constant of PoReader::parse_unit. -/
def TAGS : List String :=
  ["msgstr[0]", "msgstr[1]", "msgstr[2]", "msgstr[3]", "msgstr[4]", "msgstr[5]", "msgstr[6]"]

/-- The plural-target loop of PoReader::parse_unit: for each plural category
paired with its indexed msgstr tag, require the tag, inserting the text into the
map; a missing tag produces the expectation result for that tag (inl is the
early return of parse_unit, inr the completed map). -/
def parse_plurals (u : Unit) :
    List (Count × String) → List (Count × String) → List (Except Error PoLine) →
    Option ((Except Error (Option Unit) × List (Except Error PoLine)) ⊕
            (List (Count × String) × List (Except Error PoLine)))
  | [], m, ls => some (.inr (m, ls))
  | (c, t) :: rest, m, ls =>
    match parse_msg t u ls with
    | (.error e, ls2) => some (.inl (.error e, ls2))
    | (.ok none, ls2) => (expected [t] ls2).map fun r => .inl (r, ls2)
    | (.ok (some s), ls2) => parse_plurals u rest (btreeInsert c s m) ls2

/-- The tail of PoReader::parse_unit after the target has been assigned: derive
the Final state for a non-blank target when no state was set by the comments,
then the defensive assertion that the source is not Empty (a failing assertion
is modelled as none). -/
def finish_unit (u : Unit) (ls : List (Except Error PoLine)) :
    Option (Except Error (Option Unit) × List (Except Error PoLine)) :=
  let u2 := if u._state = State.Empty ∧ u._target.is_blank = false
            then { u with _state := State.Final } else u
  if u2._source.is_empty then none else some (.ok (some u2), ls)

/-- The obsolete-detection peek of PoReader::parse_unit: when the lookahead is
a successfully classified tag line whose marker starts with the obsolete
marker, flag the unit as obsolete. -/
def obs_flag (ls : List (Except Error PoLine)) (u : Unit) : Unit :=
  match ls with
  | .ok (.Message _ p _ _) :: _ =>
    if strStarts p "#~" then { u with _obsolete := true } else u
  | _ => u

/-- PoReader::parse_unit from po.rs, one logical catalogue entry: leading
comments, end-of-stream check with obsolete detection on the lookahead, the
previous-value group, the context, the mandatory msgid, the optional
msgid_plural, then the singular or plural target, and the derived state. The
asserts and the unreachable arms of the source are modelled as none. -/
def parse_unit (plurals : List Count) (ls0 : List (Except Error PoLine)) :
    Option (Except Error (Option Unit) × List (Except Error PoLine)) :=
  match parse_comments ls0 Unit.default with
  | none => none
  | some (ls1, u1) =>
  match ls1 with
  | [] => some (.ok none, ls1)
  | _ =>
  let u2 := obs_flag ls1 u1
  match parse_msg "|msgctxt" u2 ls1 with
  | (.error e, ls) => some (.error e, ls)
  | (.ok pc, ls2) =>
  let u3 := { u2 with _prev_context := pc }
  match parse_msg "|msgid" u3 ls2 with
  | (.error e, ls) => some (.error e, ls)
  | (.ok pmid, ls3) =>
  match (if pmid.isSome then parse_msg "|msgid_plural" u3 ls3 else (.ok none, ls3)) with
  | (.error e, ls) => some (.error e, ls)
  | (.ok pmidpl, ls4) =>
  let u4 := { u3 with _prev_source := make_source pmid pmidpl }
  match parse_msg "msgctxt" u4 ls4 with
  | (.error e, ls) => some (.error e, ls)
  | (.ok ctx, ls5) =>
  let u5 := { u4 with _context := ctx }
  match parse_msg "msgid" u5 ls5 with
  | (.error e, ls) => some (.error e, ls)
  | (.ok none, ls6) => (expected ["msgid"] ls6).map fun r => (r, ls6)
  | (.ok (some mid), ls6) =>
  match parse_msg "msgid_plural" u5 ls6 with
  | (.error e, ls) => some (.error e, ls)
  | (.ok midpl, ls7) =>
  let u6 := { u5 with _source := make_source (some mid) midpl }
  if u6._source.is_singular then
    match parse_msg "msgstr" u6 ls7 with
    | (.error e, ls) => some (.error e, ls)
    | (.ok none, ls8) => (expected ["msgstr"] ls8).map fun r => (r, ls8)
    | (.ok (some s), ls8) => finish_unit { u6 with _target := Message.Singular s } ls8
  else if u6._source.is_plural then
    match parse_plurals u6 (plurals.zip TAGS) [] ls7 with
    | none => none
    | some (.inl r) => some r
    | some (.inr (m, ls8)) => finish_unit { u6 with _target := Message.Plural m } ls8
  else none

/-- PoReader::next_unit from po.rs: collapse the parse_unit result into an
optional iterator item. -/
def next_unit (plurals : List Count) (ls : List (Except Error PoLine)) :
    Option (Option (Except Error Unit) × List (Except Error PoLine)) :=
  (parse_unit plurals ls).map fun r =>
    (match r.1 with
     | .ok none => none
     | .ok (some u) => some (.ok u)
     | .error e => some (.error e), r.2)

/-- Modelled from the spec: the type LanguageRange comes from the external
locale_config crate, which is not part of this repository. The spec treats the
language tag as an opaque identifier and declares locale-range parsing
semantics a non-goal, so a language range is modelled as the tag string itself,
the invariant range as the empty string, and construction from a tag as always
succeeding with the tag unchanged (which also collapses the from_unix fallback
chain of parse_po_header). -/
abbrev LanguageRange := String

/-- Modelled from the spec: LanguageRange::invariant. -/
def LanguageRange.invariant : LanguageRange := ""

/-- Modelled from the spec: LanguageRange::new, accepting every tag. -/
def LanguageRange.new (s : String) : Except PUnit.{1} LanguageRange := .ok s

/-- HashMap::insert on the association-list model of the header map: replace the
value of an existing key in place, or append a new binding. -/
def hmInsert (k v : String) : List (String × String) → List (String × String)
  | [] => [(k, v)]
  | (k2, v2) :: rest => if k2 = k then (k, v) :: rest else (k2, v2) :: hmInsert k v rest

/-- HashMap::get on the association-list model. -/
def hmGet (k : String) : List (String × String) → Option String
  | [] => none
  | (k2, v2) :: rest => if k2 = k then some v2 else hmGet k rest

deriving instance DecidableEq for Except

/-- PoReader from po.rs. The _lines field is the remaining classified-line
stream, _next_unit the one unit of read-ahead. The _failed field is declared by
the source but never read or written. -/
structure PoReader where
  _lines : List (Except Error PoLine)
  _next_unit : Option (Except Error Unit)
  _failed : Option Error
  _header : List (String × String)
  _target_language : LanguageRange
  _plurals : List Count
deriving DecidableEq, Repr

/-- is_header from po.rs: the pre-computed unit is present, successful, and its
source is a blank singular message. -/
def is_header : Option (Except Error Unit) → Bool
  | some (.ok u) => u._source.is_singular && u._source.is_blank
  | _ => false

/-- PoReader::parse_po_header from po.rs: split the singular target of the
header unit on newlines, enter every line containing a colon into the header
map as a trimmed key/value pair (split at the first colon), then derive the
target language from the Language key, falling back to the invariant range. -/
def parse_po_header (r : PoReader) : PoReader :=
  match r._next_unit with
  | some (.ok u) =>
    let body := (u._target.singular).getD ""
    let hdr := (splitStr '\n' body).foldl
      (fun m line =>
        match splitFirst ':' line.toList with
        | some (k, v) => hmInsert (rustTrim (String.mk k)) (rustTrim (String.mk v)) m
        | none => m)
      r._header
    let tl := match hmGet "Language" hdr with
      | some lang =>
        match LanguageRange.new lang with
        | .ok l => l
        | .error _ => LanguageRange.invariant
      | none => r._target_language
    { r with _header := hdr, _target_language := tl }
  | _ => r

/-- PoReader::new from po.rs: classify the whole input, pre-compute the first
unit, and when it is the conventional header entry, absorb it into the header
map and pre-compute the first real unit instead. -/
def PoReader.new (input : List (Except Nat String)) : Option PoReader :=
  let r0 : PoReader :=
    ⟨line_items 0 input, none, none, [], LanguageRange.invariant, []⟩
  match next_unit r0._plurals r0._lines with
  | none => none
  | some (nu, ls1) =>
    let r1 := { r0 with _next_unit := nu, _lines := ls1 }
    if is_header r1._next_unit then
      let r2 := parse_po_header r1
      match next_unit r2._plurals r2._lines with
      | none => none
      | some (nu2, ls2) => some { r2 with _next_unit := nu2, _lines := ls2 }
    else some r1

/-- The Iterator::next of PoReader from po.rs: when the read-ahead is absent the
iteration has ended and nothing changes; otherwise the next unit is pre-computed
and swapped with the read-ahead, which is yielded. The outer Option models a
panic inside unit parsing, the inner Option the iterator item. -/
def PoReader.next (r : PoReader) : Option (Option (Except Error Unit) × PoReader) :=
  if r._next_unit.isNone then some (none, r)
  else
    match next_unit r._plurals r._lines with
    | none => none
    | some (nu, ls) => some (r._next_unit, { r with _next_unit := nu, _lines := ls })

/-- CatalogueReader::target_language for PoReader. -/
def target_language (r : PoReader) : LanguageRange := r._target_language

/-! Helper notions used by the theorem statements. -/

/-- The line number recorded in a classified line. -/
def lineNo : PoLine → Nat
  | .Comment n _ _ => n
  | .Message n _ _ _ => n
  | .Continuation n _ _ => n
  | .Blank => 0

/-- The found-token text that MsgParser::expected reports for a classified
line: the marker field for a tag line, a literal double quote for a
continuation, the hash plus kind character for a comment. -/
def foundText : PoLine → Option String
  | .Message _ p _ _ => some p
  | .Continuation _ _ _ => some "\""
  | .Comment _ c _ => some ("#" ++ c.toString)
  | .Blank => none

/-- Whether the leading run of successfully classified comments of a stream
contains a flag comment listing fuzzy. -/
def leadingFuzzy : List (Except Error PoLine) → Bool
  | .ok (.Comment _ k s) :: rest => (decide (k = ',') && hasFuzzyFlag s) || leadingFuzzy rest
  | _ => false

/-- The concatenation of the texts of a run of successfully classified
continuation lines. -/
def contConcat : List (Except Error PoLine) → String
  | .ok (.Continuation _ _ t) :: rest => t ++ contConcat rest
  | _ => ""

/-- The invariant satisfied by every element the line source can produce: a
successfully classified line is never Blank and a comment kind is one of the
four characters produced by COMMENT_RE. -/
def wfLine : Except Error PoLine → Prop
  | .ok (.Comment _ k _) => k = ' ' ∨ k = ':' ∨ k = '.' ∨ k = ','
  | .ok .Blank => False
  | _ => True

/-! Concrete inputs and the reader states they produce, used by the
counterexamples and witnesses below. -/

/-- An input whose first line is unclassifiable and which continues with a
complete unit. -/
def c2_input : List (Except Nat String) :=
  [.ok "bogus line", .ok "msgid \"a\"", .ok "msgstr \"b\""]

/-- The unit parsed from lines two and three of c2_input. -/
def c2_unit : Unit :=
  ⟨none, .Singular "a", .Singular "b", none, .Empty, [], [], .Final, false⟩

/-- The reader produced for c2_input: the read-ahead holds the Parse error of
line one. -/
def c2_reader0 : PoReader :=
  ⟨[.ok (.Message 2 "" "msgid" "a"), .ok (.Message 3 "" "msgstr" "b")],
   some (.error (.Parse 1 (some "bogus line") [])), none, [], "", []⟩

/-- The reader state after yielding the error item of c2_input. -/
def c2_reader1 : PoReader := ⟨[], some (.ok c2_unit), none, [], "", []⟩

/-- The reader state after yielding the unit of c2_input; the read-ahead is
exhausted. -/
def c2_reader2 : PoReader := ⟨[], none, none, [], "", []⟩

/-- An input that ends immediately after a msgid line. -/
def c3_input : List (Except Nat String) := [.ok "msgid \"a\""]

/-- The reader produced for c3_input: no pending unit and no pending error. -/
def c3_reader : PoReader := ⟨[], none, none, [], "", []⟩

/-- A catalogue whose header carries a duplicate key (after trimming) and a
Language key with surrounding whitespace, followed by one content unit. -/
def c7_input : List (Except Nat String) :=
  [.ok "msgid \"\"",
   .ok "msgstr \"\"",
   .ok "\"A: 1\\n\"",
   .ok "\"A : 2\\n\"",
   .ok "\"Language:  cs \\n\"",
   .ok "msgid \"hello\"",
   .ok "msgstr \"world\""]

/-- The single content unit of c7_input. -/
def c7_unit : Unit :=
  ⟨none, .Singular "hello", .Singular "world", none, .Empty, [], [], .Final, false⟩

/-- The reader produced for c7_input: header absorbed, target language cs. -/
def c7_reader : PoReader :=
  ⟨[], some (.ok c7_unit), none, [("A", "2"), ("Language", "cs")], "cs", []⟩

/-- The reader state after yielding the content unit of c7_input. -/
def c7_reader2 : PoReader :=
  ⟨[], none, none, [("A", "2"), ("Language", "cs")], "cs", []⟩

/-- A catalogue whose header body has no Language key. -/
def c7b_input : List (Except Nat String) :=
  [.ok "msgid \"\"",
   .ok "msgstr \"nokey\\n\"",
   .ok "msgid \"a\"",
   .ok "msgstr \"b\""]

/-- The reader produced for c7b_input: the target language stays invariant. -/
def c7b_reader : PoReader :=
  ⟨[], some (.ok ⟨none, .Singular "a", .Singular "b", none, .Empty, [], [], .Final, false⟩),
   none, [], "", []⟩

/-- The stream of a unit with a fuzzy flag comment, used as a witness input. -/
def c6_stream : List (Except Error PoLine) :=
  [.ok (.Comment 1 ',' " fuzzy , other"),
   .ok (.Message 2 "" "msgid" "a"),
   .ok (.Message 3 "" "msgstr" "b")]

/-- The unit parsed from c6_stream: fuzzy, hence NeedsWork. -/
def c6_unit : Unit :=
  ⟨none, .Singular "a", .Singular "b", none, .Empty, [], [], .NeedsWork, false⟩

/-- A complete raw two-line unit, used as a witness input. -/
def c9_input : List (Except Nat String) := [.ok "msgid \"a\"", .ok "msgstr \"b\""]

/-! Shared lemmas about the classifier and the parsing primitives. -/

theorem commentRe_kind (cs : List Char) (k : Char) (t : List Char)
    (h : commentRe cs = some (k, t)) : k = ' ' ∨ k = ':' ∨ k = '.' ∨ k = ',' := by
  unfold commentRe at h
  split at h
  · split at h
    · split at h
      · rename_i c r2 hc
        injection h with h1
        injection h1 with hk _
        subst hk
        tauto
      · injection h with h1
        injection h1 with hk _
        subst hk
        tauto
    · injection h with h1
      injection h1 with hk _
      subst hk
      tauto
  · exact absurd h (by simp)

theorem parse_po_line_wf (s : String) (n : Nat) (l : PoLine)
    (h : parse_po_line s n = .ok l) (hb : l ≠ .Blank) : wfLine (.ok l) := by
  unfold parse_po_line at h
  split at h
  · injection h with h1
    exact absurd h1.symm hb
  · split at h
    · injection h with h1
      subst h1
      trivial
    · injection h with h1
      subst h1
      trivial
    · split at h
      · rename_i k txt hc
        injection h with h1
        subst h1
        exact commentRe_kind _ _ _ hc
      · exact absurd h (by simp)

theorem line_items_wf (input : List (Except Nat String)) :
    ∀ n, ∀ x ∈ line_items n input, wfLine x := by
  induction input with
  | nil => intro n x hx; simp [line_items] at hx
  | cons hd tl ih =>
    intro n x hx
    match hd with
    | .error e =>
      simp only [line_items] at hx
      rcases List.mem_cons.mp hx with h | h
      · subst h; trivial
      · exact ih n x h
    | .ok s =>
      simp only [line_items] at hx
      split at hx
      · exact ih (n + 1) x hx
      · rename_i p hne heq
        rcases List.mem_cons.mp hx with h | h
        · subst h
          exact parse_po_line_wf s (n + 1) p heq (by intro hcon; exact hne hcon)
        · exact ih (n + 1) x h
      · rcases List.mem_cons.mp hx with h | h
        · subst h; trivial
        · exact ih (n + 1) x h

theorem parseMsgCont_suffix (p acc : String) (ls : List (Except Error PoLine)) :
    (parseMsgCont p acc ls).2 <:+ ls := by
  induction ls generalizing acc with
  | nil => exact List.suffix_refl _
  | cons x rest ih =>
    match x with
    | .error e => exact List.suffix_cons _ _
    | .ok (.Continuation n q s) =>
      simp only [parseMsgCont]
      split
      · exact ((ih (acc ++ s)).trans (List.suffix_cons _ _))
      · exact List.suffix_refl _
    | .ok (.Comment n k s) => exact List.suffix_refl _
    | .ok (.Message n p2 t s) => exact List.suffix_refl _
    | .ok .Blank => exact List.suffix_refl _

theorem parse_msg_suffix (tag : String) (u : Unit) (ls : List (Except Error PoLine)) :
    (parse_msg tag u ls).2 <:+ ls := by
  match ls with
  | [] => exact List.suffix_refl _
  | .error e :: rest => exact List.suffix_cons _ _
  | .ok (.Message n p t s) :: rest =>
    simp only [parse_msg]
    split
    · have h := parseMsgCont_suffix p s rest
      split
      · rename_i heq
        rw [heq] at h
        exact h.trans (List.suffix_cons _ _)
      · rename_i heq
        rw [heq] at h
        exact h.trans (List.suffix_cons _ _)
    · exact List.suffix_refl _
  | .ok (.Comment n k s) :: rest => exact List.suffix_refl _
  | .ok (.Continuation n q s) :: rest => exact List.suffix_refl _
  | .ok .Blank :: rest => exact List.suffix_refl _

theorem parse_msg_ok_none (tag : String) (u : Unit) (ls ls2 : List (Except Error PoLine))
    (h : parse_msg tag u ls = (.ok none, ls2)) :
    ls2 = ls ∧ (ls = [] ∨ ∃ l tl, ls = .ok l :: tl) := by
  match ls with
  | [] =>
    exact ⟨(congrArg Prod.snd h).symm, Or.inl rfl⟩
  | .error e :: rest =>
    simp only [parse_msg] at h
    exact absurd (congrArg Prod.fst h) (by simp)
  | .ok (.Message n p t s) :: rest =>
    simp only [parse_msg] at h
    split at h
    · split at h
      · exact absurd (congrArg Prod.fst h) (by simp)
      · exact absurd (congrArg Prod.fst h) (by simp)
    · exact ⟨(congrArg Prod.snd h).symm, Or.inr ⟨_, _, rfl⟩⟩
  | .ok (.Comment n k s) :: rest =>
    simp only [parse_msg] at h
    exact ⟨(congrArg Prod.snd h).symm, Or.inr ⟨_, _, rfl⟩⟩
  | .ok (.Continuation n q s) :: rest =>
    simp only [parse_msg] at h
    exact ⟨(congrArg Prod.snd h).symm, Or.inr ⟨_, _, rfl⟩⟩
  | .ok .Blank :: rest =>
    simp only [parse_msg] at h
    exact ⟨(congrArg Prod.snd h).symm, Or.inr ⟨_, _, rfl⟩⟩

theorem parseMsgCont_spec (p : String) (acc : String)
    (conts rest : List (Except Error PoLine))
    (hconts : ∀ x ∈ conts, ∃ m t, x = .ok (.Continuation m p t))
    (hrest : rest = [] ∨ ∃ l rs, rest = .ok l :: rs ∧ ∀ m t2, l ≠ .Continuation m p t2) :
    parseMsgCont p acc (conts ++ rest) = (.ok (acc ++ contConcat conts), rest) := by
  induction conts generalizing acc with
  | nil =>
    simp only [List.nil_append, contConcat, String.append_empty]
    rcases hrest with h | ⟨l, rs, hl, hne⟩
    · subst h; rfl
    · subst hl
      match l, hne with
      | .Continuation m q t, hne =>
        simp only [parseMsgCont]
        rw [if_neg]
        intro hq
        exact hne m t (by rw [hq])
      | .Message m q t s, _ => rfl
      | .Comment m k s, _ => rfl
      | .Blank, _ => rfl
  | cons x cs ih =>
    obtain ⟨m, t, hx⟩ := hconts x (List.mem_cons_self x cs)
    subst hx
    simp only [List.cons_append, parseMsgCont, List.append_eq, contConcat,
      eq_self_iff_true, if_true]
    rw [ih (acc ++ t) (fun y hy => hconts y (List.mem_cons_of_mem _ hy)), String.append_assoc]

theorem parse_msg_match (tag : String) (u : Unit) (n : Nat) (p s : String)
    (conts rest : List (Except Error PoLine))
    (hp : strStarts p "#~" = u._obsolete)
    (hconts : ∀ x ∈ conts, ∃ m t, x = .ok (.Continuation m p t))
    (hrest : rest = [] ∨ ∃ l rs, rest = .ok l :: rs ∧ ∀ m t2, l ≠ .Continuation m p t2) :
    parse_msg tag u (.ok (.Message n p tag s) :: (conts ++ rest)) =
      (.ok (some (s ++ contConcat conts)), rest) := by
  simp only [parse_msg]
  rw [parseMsgCont_spec p s conts rest hconts hrest]
  split
  · rfl
  · rename_i hcond
    exact absurd (And.intro trivial hp) hcond

theorem parse_msg_nomatch (tag : String) (u : Unit) (l : PoLine)
    (ls : List (Except Error PoLine))
    (h : ∀ m p s, l = PoLine.Message m p tag s → strStarts p "#~" ≠ u._obsolete) :
    parse_msg tag u (.ok l :: ls) = (.ok none, .ok l :: ls) := by
  match l with
  | .Message m p t s =>
    simp only [parse_msg]
    rw [if_neg]
    rintro ⟨ht, hp⟩
    subst ht
    exact h m p s rfl hp
  | .Comment m k s => rfl
  | .Continuation m q s => rfl
  | .Blank => rfl

theorem parse_comments_suffix (ls : List (Except Error PoLine)) (u : Unit)
    (ls2 : List (Except Error PoLine)) (u2 : Unit)
    (h : parse_comments ls u = some (ls2, u2)) : ls2 <:+ ls := by
  induction ls generalizing u with
  | nil =>
    simp only [parse_comments] at h
    injection h with h1
    injection h1 with ha hb
    subst ha
    exact List.suffix_refl _
  | cons x rest ih =>
    match x with
    | .ok (.Comment m k s) =>
      simp only [parse_comments] at h
      split at h
      · exact (ih _ h).trans (List.suffix_cons _ _)
      · split at h
        · exact (ih _ h).trans (List.suffix_cons _ _)
        · split at h
          · exact (ih _ h).trans (List.suffix_cons _ _)
          · split at h
            · exact (ih _ h).trans (List.suffix_cons _ _)
            · exact absurd h (by simp)
    | .ok (.Message m p t s) =>
      simp only [parse_comments] at h
      injection h with h1
      injection h1 with ha hb
      subst ha
      exact List.suffix_refl _
    | .ok (.Continuation m q s) =>
      simp only [parse_comments] at h
      injection h with h1
      injection h1 with ha hb
      subst ha
      exact List.suffix_refl _
    | .ok .Blank =>
      simp only [parse_comments] at h
      injection h with h1
      injection h1 with ha hb
      subst ha
      exact List.suffix_refl _
    | .error e =>
      simp only [parse_comments] at h
      injection h with h1
      injection h1 with ha hb
      subst ha
      exact List.suffix_refl _

theorem parse_comments_state (ls : List (Except Error PoLine)) (u : Unit)
    (ls2 : List (Except Error PoLine)) (u2 : Unit)
    (h : parse_comments ls u = some (ls2, u2)) :
    u2._state = (if leadingFuzzy ls then State.NeedsWork else u._state) := by
  induction ls generalizing u with
  | nil =>
    simp only [parse_comments] at h
    injection h with h1
    injection h1 with ha hb
    subst hb
    simp [leadingFuzzy]
  | cons x rest ih =>
    match x with
    | .ok (.Comment m k s) =>
      simp only [parse_comments] at h
      split at h
      · rename_i hk
        subst hk
        rw [ih _ h]
        simp only [leadingFuzzy, decide_True, Bool.true_and]
        by_cases hf : hasFuzzyFlag s
        · simp [hf]
        · simp [hf, Bool.false_or]
      · rename_i hk
        split at h
        · rw [ih _ h]
          simp [leadingFuzzy, hk]
        · split at h
          · rw [ih _ h]
            simp [leadingFuzzy, hk]
          · split at h
            · rw [ih _ h]
              simp [leadingFuzzy, hk]
            · exact absurd h (by simp)
    | .ok (.Message m p t s) =>
      simp only [parse_comments] at h
      injection h with h1
      injection h1 with ha hb
      subst hb
      simp [leadingFuzzy]
    | .ok (.Continuation m q s) =>
      simp only [parse_comments] at h
      injection h with h1
      injection h1 with ha hb
      subst hb
      simp [leadingFuzzy]
    | .ok .Blank =>
      simp only [parse_comments] at h
      injection h with h1
      injection h1 with ha hb
      subst hb
      simp [leadingFuzzy]
    | .error e =>
      simp only [parse_comments] at h
      injection h with h1
      injection h1 with ha hb
      subst hb
      simp [leadingFuzzy]

theorem parse_comments_isSome (ls : List (Except Error PoLine)) (u : Unit)
    (hwf : ∀ x ∈ ls, wfLine x) : (parse_comments ls u).isSome = true := by
  induction ls generalizing u with
  | nil => rfl
  | cons x rest ih =>
    have hrest : ∀ y ∈ rest, wfLine y := fun y hy => hwf y (List.mem_cons_of_mem _ hy)
    match x with
    | .ok (.Comment m k s) =>
      have hk := hwf _ (List.mem_cons_self _ _)
      simp only [wfLine] at hk
      simp only [parse_comments]
      rcases hk with hk | hk | hk | hk <;> subst hk <;> simp <;> exact ih _ hrest
    | .ok (.Message m p t s) => rfl
    | .ok (.Continuation m q s) => rfl
    | .ok .Blank => rfl
    | .error e => rfl

theorem parse_comments_all (ls : List (Except Error PoLine)) (u : Unit)
    (h : ∀ x ∈ ls, ∃ n k s, x = .ok (.Comment n k s) ∧ (k = ' ' ∨ k = ':' ∨ k = '.' ∨ k = ',')) :
    ∃ u2, parse_comments ls u = some ([], u2) := by
  induction ls generalizing u with
  | nil => exact ⟨u, rfl⟩
  | cons x rest ih =>
    obtain ⟨n, k, s, hx, hk⟩ := h x (List.mem_cons_self _ _)
    subst hx
    have hrest : ∀ y ∈ rest, _ := fun y hy => h y (List.mem_cons_of_mem _ hy)
    simp only [parse_comments]
    rcases hk with hk | hk | hk | hk <;> subst hk <;> simp <;> exact ih _ hrest

theorem expected_isSome (exp : List String) (ls : List (Except Error PoLine))
    (hwf : ∀ x ∈ ls, wfLine x) (hshape : ls = [] ∨ ∃ l tl, ls = .ok l :: tl) :
    (expected exp ls).isSome = true := by
  rcases hshape with h | ⟨l, tl, h⟩
  · subst h; rfl
  · subst h
    match l with
    | .Message n p t s => rfl
    | .Continuation n q s => rfl
    | .Comment n k s => rfl
    | .Blank => exact absurd (hwf _ (List.mem_cons_self _ _)) (by simp [wfLine])

theorem expected_no_unit (exp : List String) (ls : List (Except Error PoLine))
    (u : Unit) (h : expected exp ls = some (.ok (some u))) : False := by
  match ls with
  | [] => simp [expected] at h
  | .error e :: tl => simp [expected] at h
  | .ok (.Message n p t s) :: tl => simp [expected] at h
  | .ok (.Continuation n q s) :: tl => simp [expected] at h
  | .ok (.Comment n k s) :: tl => simp [expected] at h
  | .ok .Blank :: tl => simp [expected] at h

theorem finish_unit_isSome (w : Unit) (ls : List (Except Error PoLine))
    (h : w._source.is_empty = false) : (finish_unit w ls).isSome = true := by
  unfold finish_unit
  dsimp only []
  split <;> simp_all

theorem finish_unit_shape (w : Unit) (ls8 : List (Except Error PoLine))
    (u : Unit) (rest : List (Except Error PoLine))
    (h : finish_unit w ls8 = some (.ok (some u), rest)) :
    u._source = w._source ∧ u._target = w._target ∧
    u._state = (if w._state = State.Empty ∧ w._target.is_blank = false
                then State.Final else w._state) := by
  unfold finish_unit at h
  dsimp only [] at h
  by_cases hc : (w._state = State.Empty ∧ w._target.is_blank = false)
  · rw [if_pos hc] at h
    split at h
    · exact absurd h (by simp)
    · injection h with h1
      injection h1 with ha hb
      injection ha with ha2
      injection ha2 with ha3
      subst ha3
      exact ⟨rfl, rfl, by rw [if_pos hc]⟩
  · rw [if_neg hc] at h
    split at h
    · exact absurd h (by simp)
    · injection h with h1
      injection h1 with ha hb
      injection ha with ha2
      injection ha2 with ha3
      subst ha3
      exact ⟨rfl, rfl, by rw [if_neg hc]⟩

theorem parse_plurals_isSome (u : Unit) (pt : List (Count × String))
    (m : List (Count × String)) (ls : List (Except Error PoLine))
    (hwf : ∀ x ∈ ls, wfLine x) : (parse_plurals u pt m ls).isSome = true := by
  induction pt generalizing m ls with
  | nil => rfl
  | cons ct rest ih =>
    obtain ⟨c, t⟩ := ct
    cases hpm : parse_msg t u ls with
    | mk r ls2 =>
      cases r with
      | error e => simp [parse_plurals, hpm]
      | ok os =>
        cases os with
        | none =>
          obtain ⟨hls, hshape⟩ := parse_msg_ok_none t u ls ls2 hpm
          subst hls
          have hx := expected_isSome [t] ls2 hwf hshape
          simp only [parse_plurals, hpm]
          cases hexp : expected [t] ls2 with
          | none => rw [hexp] at hx; simp at hx
          | some r => simp
        | some s =>
          have hsub := parse_msg_suffix t u ls
          rw [hpm] at hsub
          simp only [parse_plurals, hpm]
          exact ih _ _ (fun x hx => hwf x (hsub.subset hx))

theorem parse_plurals_no_unit (u : Unit) (pt : List (Count × String))
    (m : List (Count × String)) (ls : List (Except Error PoLine))
    (u2 : Unit) (ls2 : List (Except Error PoLine))
    (h : parse_plurals u pt m ls = some (.inl (.ok (some u2), ls2))) : False := by
  induction pt generalizing m ls with
  | nil => simp [parse_plurals] at h
  | cons ct rest ih =>
    obtain ⟨c, t⟩ := ct
    cases hpm : parse_msg t u ls with
    | mk r lsA =>
      cases r with
      | error e =>
        simp only [parse_plurals, hpm] at h
        simp at h
      | ok os =>
        cases os with
        | none =>
          simp only [parse_plurals, hpm] at h
          cases hexp : expected [t] lsA with
          | none => rw [hexp] at h; simp at h
          | some rr =>
            rw [hexp] at h
            simp at h
            obtain ⟨h1, h2⟩ := h
            subst h1
            exact expected_no_unit [t] lsA u2 hexp
        | some s =>
          simp only [parse_plurals, hpm] at h
          exact ih _ _ h

theorem obs_flag_state (ls : List (Except Error PoLine)) (u : Unit) :
    (obs_flag ls u)._state = u._state := by
  unfold obs_flag
  split
  · split <;> rfl
  · rfl

theorem make_source_nonempty (mid : String) (o : Option String) :
    (make_source (some mid) o).is_empty = false := by
  cases o <;> rfl

theorem parse_unit_ok_shape (plurals : List Count) (ls : List (Except Error PoLine))
    (u : Unit) (rest : List (Except Error PoLine))
    (h : parse_unit plurals ls = some (.ok (some u), rest)) :
    ∃ ls1 u1, parse_comments ls Unit.default = some (ls1, u1) ∧
      u._source.is_empty = false ∧
      u._state = (if u1._state = State.Empty ∧ u._target.is_blank = false
                  then State.Final else u1._state) := by
  simp only [parse_unit] at h
  split at h
  next hpc => simp at h
  next ls1 u1 hpc =>
  refine ⟨ls1, u1, hpc, ?_⟩
  split at h
  next => simp at h
  next x xs =>
  split at h
  next e lsA hp1 => simp at h
  next pc lsA hp1 =>
  split at h
  next e lsB hp2 => simp at h
  next pmid lsB hp2 =>
  split at h
  next e lsC hp3 => simp at h
  next pmidpl lsC hp3 =>
  split at h
  next e lsD hp4 => simp at h
  next ctx lsD hp4 =>
  split at h
  next e lsE hp5 => simp at h
  next lsE hp5 =>
    rw [Option.map_eq_some'] at h
    obtain ⟨r, hr, hre⟩ := h
    injection hre with hre1 hre2
    subst hre1
    exact absurd hr (fun hh => expected_no_unit _ _ _ hh)
  next mid lsE hp5 =>
  split at h
  next e lsF hp6 => simp at h
  next midpl lsF hp6 =>
  split at h
  next hsing =>
    split at h
    next e lsG hp7 => simp at h
    next lsG hp7 =>
      rw [Option.map_eq_some'] at h
      obtain ⟨r, hr, hre⟩ := h
      injection hre with hre1 hre2
      subst hre1
      exact absurd hr (fun hh => expected_no_unit _ _ _ hh)
    next s lsG hp7 =>
      obtain ⟨hsrc, htgt, hst⟩ := finish_unit_shape _ _ _ _ h
      dsimp only [] at hsrc htgt hst
      constructor
      · rw [hsrc]
        exact make_source_nonempty mid midpl
      · rw [obs_flag_state] at hst
        rw [← htgt] at hst
        exact hst
  next hnsing =>
  split at h
  next hplur =>
    split at h
    next hppl => simp at h
    next r hppl =>
      injection h with h1
      subst h1
      exact absurd hppl (fun hh => parse_plurals_no_unit _ _ _ _ _ _ hh)
    next mm lsG hppl =>
      obtain ⟨hsrc, htgt, hst⟩ := finish_unit_shape _ _ _ _ h
      dsimp only [] at hsrc htgt hst
      constructor
      · rw [hsrc]
        exact make_source_nonempty mid midpl
      · rw [obs_flag_state] at hst
        rw [← htgt] at hst
        exact hst
  next hnplur => simp at h

theorem parse_unit_isSome (plurals : List Count) (ls : List (Except Error PoLine))
    (hwf : ∀ x ∈ ls, wfLine x) : (parse_unit plurals ls).isSome = true := by
  simp only [parse_unit]
  split
  next hpc =>
    have hx := parse_comments_isSome ls Unit.default hwf
    rw [hpc] at hx
    simp at hx
  next ls1 u1 hpc =>
  have hs1 : ls1 <:+ ls := parse_comments_suffix ls Unit.default ls1 u1 hpc
  have hwf1 : ∀ x ∈ ls1, wfLine x := fun x hx => hwf x (hs1.subset hx)
  split
  next => rfl
  next y hne =>
  split
  next e lsA hp1 => rfl
  next pc lsA hp1 =>
  have hsA : lsA <:+ ls1 := by
    have h2 := congrArg Prod.snd hp1
    dsimp only [] at h2
    rw [← h2]
    exact parse_msg_suffix _ _ _
  have hwfA : ∀ y ∈ lsA, wfLine y := fun y hy => hwf1 y (hsA.subset hy)
  split
  next e lsB hp2 => rfl
  next pmid lsB hp2 =>
  have hsB : lsB <:+ lsA := by
    have h2 := congrArg Prod.snd hp2
    dsimp only [] at h2
    rw [← h2]
    exact parse_msg_suffix _ _ _
  have hwfB : ∀ y ∈ lsB, wfLine y := fun y hy => hwfA y (hsB.subset hy)
  split
  next e lsC hp3 => rfl
  next pmidpl lsC hp3 =>
  have hsC : lsC <:+ lsB := by
    have h2 := congrArg Prod.snd hp3
    dsimp only [] at h2
    rw [← h2]
    split
    · exact parse_msg_suffix _ _ _
    · exact List.suffix_refl _
  have hwfC : ∀ y ∈ lsC, wfLine y := fun y hy => hwfB y (hsC.subset hy)
  split
  next e lsD hp4 => rfl
  next ctx lsD hp4 =>
  have hsD : lsD <:+ lsC := by
    have h2 := congrArg Prod.snd hp4
    dsimp only [] at h2
    rw [← h2]
    exact parse_msg_suffix _ _ _
  have hwfD : ∀ y ∈ lsD, wfLine y := fun y hy => hwfC y (hsD.subset hy)
  split
  next e lsE hp5 => rfl
  next lsE hp5 =>
    obtain ⟨hEq, hshape⟩ := parse_msg_ok_none _ _ _ _ hp5
    subst hEq
    have hx := expected_isSome ["msgid"] lsE hwfD hshape
    cases hexp : expected ["msgid"] lsE with
    | none => rw [hexp] at hx; simp at hx
    | some r => rfl
  next mid lsE hp5 =>
  have hsE : lsE <:+ lsD := by
    have h2 := congrArg Prod.snd hp5
    dsimp only [] at h2
    rw [← h2]
    exact parse_msg_suffix _ _ _
  have hwfE : ∀ y ∈ lsE, wfLine y := fun y hy => hwfD y (hsE.subset hy)
  split
  next e lsF hp6 => rfl
  next midpl lsF hp6 =>
  have hsF : lsF <:+ lsE := by
    have h2 := congrArg Prod.snd hp6
    dsimp only [] at h2
    rw [← h2]
    exact parse_msg_suffix _ _ _
  have hwfF : ∀ y ∈ lsF, wfLine y := fun y hy => hwfE y (hsF.subset hy)
  split
  next hsing =>
    split
    next e lsG hp7 => rfl
    next lsG hp7 =>
      obtain ⟨hEq, hshape⟩ := parse_msg_ok_none _ _ _ _ hp7
      subst hEq
      have hx := expected_isSome ["msgstr"] lsG hwfF hshape
      cases hexp : expected ["msgstr"] lsG with
      | none => rw [hexp] at hx; simp at hx
      | some r => rfl
    next s lsG hp7 =>
      exact finish_unit_isSome _ _ (make_source_nonempty mid midpl)
  next hnsing =>
  split
  next hplur =>
    split
    next hppl =>
      exact absurd hppl (Option.ne_none_iff_isSome.mpr (parse_plurals_isSome _ _ _ _ hwfF))
    next r hppl => rfl
    next mm lsG hppl =>
      exact finish_unit_isSome _ _ (make_source_nonempty mid midpl)
  next hnplur =>
    cases midpl with
    | none => exact absurd rfl hnsing
    | some pl => exact absurd rfl hnplur

/-- Claim C3 (amended): for a catalogue entry consisting of a msgid tag line
with its continuation lines but no following msgstr tag, the behaviour splits
on what follows the msgid block. If the input ends there, parse_unit reports
the clean end of the catalogue (no unit and no error) rather than a Parse
error. If a classified line follows (one that extends neither the msgid block
nor the unit with msgid_plural or msgstr), parse_unit returns a Parse error
whose expected list is msgstr, located at that line's recorded number, with
the found text built from that line. -/
theorem c3_missing_msgstr (plurals : List Count) (n : Nat) (s : String)
    (conts : List (Except Error PoLine))
    (hconts : ∀ x ∈ conts, ∃ m t, x = .ok (.Continuation m "" t)) :
    (parse_unit plurals (.ok (.Message n "" "msgid" s) :: (conts ++ [])) =
      some (.ok none, [])) ∧
    (∀ (l : PoLine) (rs : List (Except Error PoLine)),
      l ≠ .Blank →
      (∀ m t2, l ≠ .Continuation m "" t2) →
      (∀ m p t2, l = .Message m p "msgid_plural" t2 → strStarts p "#~" = true) →
      (∀ m p t2, l = .Message m p "msgstr" t2 → strStarts p "#~" = true) →
      parse_unit plurals (.ok (.Message n "" "msgid" s) :: (conts ++ (.ok l :: rs))) =
        some (.error (.Parse (lineNo l) (foundText l) ["msgstr"]), .ok l :: rs)) := by
  constructor
  · simp only [parse_unit]
    split
    next hpc =>
      rw [show parse_comments (.ok (.Message n "" "msgid" s) :: (conts ++ []))
            Unit.default =
          some ((.ok (.Message n "" "msgid" s) :: (conts ++ [])), Unit.default) from rfl] at hpc
      simp at hpc
    next ls1 u1 hpc =>
    rw [show parse_comments (.ok (.Message n "" "msgid" s) :: (conts ++ []))
          Unit.default =
        some ((.ok (.Message n "" "msgid" s) :: (conts ++ [])), Unit.default) from rfl] at hpc
    injection hpc with hpc1
    injection hpc1 with ha hb
    subst ha
    subst hb
    split
    next heq => simp at heq
    next y hne =>
    split
    next e lsA hp1 =>
      rw [parse_msg_nomatch] at hp1
      · simp at hp1
      · intro m p s2 hEq
        injection hEq with h1 h2 h3 h4
        exact absurd h3 (by decide)
    next pc lsA hp1 =>
    rw [parse_msg_nomatch] at hp1
    case _ =>
      injection hp1 with ha hb
      injection ha with ha2
      subst ha2
      subst hb
      split
      next e lsB hp2 =>
        rw [parse_msg_nomatch] at hp2
        · simp at hp2
        · intro m p s2 hEq
          injection hEq with h1 h2 h3 h4
          exact absurd h3 (by decide)
      next pmid lsB hp2 =>
      rw [parse_msg_nomatch] at hp2
      case _ =>
        injection hp2 with ha hb
        injection ha with ha2
        subst ha2
        subst hb
        split
        next e lsC hp3 => simp at hp3
        next pmidpl lsC hp3 =>
        simp only [Option.isSome_none, Bool.false_eq_true, if_false] at hp3
        injection hp3 with ha hb
        injection ha with ha2
        subst ha2
        subst hb
        split
        next e lsD hp4 =>
          rw [parse_msg_nomatch] at hp4
          · simp at hp4
          · intro m p s2 hEq
            injection hEq with h1 h2 h3 h4
            exact absurd h3 (by decide)
        next ctx lsD hp4 =>
        rw [parse_msg_nomatch] at hp4
        case _ =>
          injection hp4 with ha hb
          injection ha with ha2
          subst ha2
          subst hb
          split
          next e lsE hp5 =>
            rw [parse_msg_match] at hp5
            · simp at hp5
            · rfl
            · exact hconts
            · exact Or.inl rfl
          next lsE hp5 =>
            rw [parse_msg_match] at hp5
            · simp at hp5
            · rfl
            · exact hconts
            · exact Or.inl rfl
          next mid lsE hp5 =>
          rw [parse_msg_match] at hp5
          case _ =>
            injection hp5 with ha hb
            injection ha with ha2
            injection ha2 with ha3
            subst ha3
            subst hb
            split
            next e lsF hp6 => simp [parse_msg] at hp6
            next midpl lsF hp6 =>
            simp only [parse_msg] at hp6
            injection hp6 with ha hb
            injection ha with ha2
            subst ha2
            subst hb
            split
            next hsing =>
              split
              next e lsG hp7 => simp [parse_msg] at hp7
              next lsG hp7 =>
                simp only [parse_msg] at hp7
                injection hp7 with ha hb
                subst hb
                rfl
              next s2 lsG hp7 => simp [parse_msg] at hp7
            next hnsing => exact absurd rfl hnsing
          case _ => rfl
          case _ => exact hconts
          case _ => exact Or.inl rfl
        case _ =>
          intro m p s2 hEq
          injection hEq with h1 h2 h3 h4
          exact absurd h3 (by decide)
      case _ =>
        intro m p s2 hEq
        injection hEq with h1 h2 h3 h4
        exact absurd h3 (by decide)
    case _ =>
      intro m p s2 hEq
      injection hEq with h1 h2 h3 h4
      exact absurd h3 (by decide)
  · intro l rs hblank hcont hmidpl hmsgstr
    simp only [parse_unit]
    split
    next hpc =>
      rw [show parse_comments (.ok (.Message n "" "msgid" s) :: (conts ++ (.ok l :: rs)))
            Unit.default =
          some ((.ok (.Message n "" "msgid" s) :: (conts ++ (.ok l :: rs))), Unit.default)
          from rfl] at hpc
      simp at hpc
    next ls1 u1 hpc =>
    rw [show parse_comments (.ok (.Message n "" "msgid" s) :: (conts ++ (.ok l :: rs)))
          Unit.default =
        some ((.ok (.Message n "" "msgid" s) :: (conts ++ (.ok l :: rs))), Unit.default)
        from rfl] at hpc
    injection hpc with hpc1
    injection hpc1 with ha hb
    subst ha
    subst hb
    split
    next heq => simp at heq
    next y hne =>
    split
    next e lsA hp1 =>
      rw [parse_msg_nomatch] at hp1
      · simp at hp1
      · intro m p s2 hEq
        injection hEq with h1 h2 h3 h4
        exact absurd h3 (by decide)
    next pc lsA hp1 =>
    rw [parse_msg_nomatch] at hp1
    case _ =>
      injection hp1 with ha hb
      injection ha with ha2
      subst ha2
      subst hb
      split
      next e lsB hp2 =>
        rw [parse_msg_nomatch] at hp2
        · simp at hp2
        · intro m p s2 hEq
          injection hEq with h1 h2 h3 h4
          exact absurd h3 (by decide)
      next pmid lsB hp2 =>
      rw [parse_msg_nomatch] at hp2
      case _ =>
        injection hp2 with ha hb
        injection ha with ha2
        subst ha2
        subst hb
        split
        next e lsC hp3 => simp at hp3
        next pmidpl lsC hp3 =>
        simp only [Option.isSome_none, Bool.false_eq_true, if_false] at hp3
        injection hp3 with ha hb
        injection ha with ha2
        subst ha2
        subst hb
        split
        next e lsD hp4 =>
          rw [parse_msg_nomatch] at hp4
          · simp at hp4
          · intro m p s2 hEq
            injection hEq with h1 h2 h3 h4
            exact absurd h3 (by decide)
        next ctx lsD hp4 =>
        rw [parse_msg_nomatch] at hp4
        case _ =>
          injection hp4 with ha hb
          injection ha with ha2
          subst ha2
          subst hb
          split
          next e lsE hp5 =>
            rw [parse_msg_match] at hp5
            · simp at hp5
            · rfl
            · exact hconts
            · exact Or.inr ⟨l, rs, rfl, hcont⟩
          next lsE hp5 =>
            rw [parse_msg_match] at hp5
            · simp at hp5
            · rfl
            · exact hconts
            · exact Or.inr ⟨l, rs, rfl, hcont⟩
          next mid lsE hp5 =>
          rw [parse_msg_match] at hp5
          case _ =>
            injection hp5 with ha hb
            injection ha with ha2
            injection ha2 with ha3
            subst ha3
            subst hb
            split
            next e lsF hp6 =>
              rw [parse_msg_nomatch] at hp6
              · simp at hp6
              · intro m p s2 hEq
                intro hx
                rw [hmidpl m p s2 hEq] at hx
                exact Bool.noConfusion hx
            next midpl lsF hp6 =>
            rw [parse_msg_nomatch] at hp6
            case _ =>
              injection hp6 with ha hb
              injection ha with ha2
              subst ha2
              subst hb
              split
              next hsing =>
                split
                next e lsG hp7 =>
                  rw [parse_msg_nomatch] at hp7
                  · simp at hp7
                  · intro m p s2 hEq
                    intro hx
                    rw [hmsgstr m p s2 hEq] at hx
                    exact Bool.noConfusion hx
                next lsG hp7 =>
                  rw [parse_msg_nomatch] at hp7
                  case _ =>
                    injection hp7 with ha hb
                    subst hb
                    match l, hblank with
                    | .Message m p t s2, _ => rfl
                    | .Continuation m q t, _ => rfl
                    | .Comment m k t, _ => rfl
                    | .Blank, hblank => exact absurd rfl hblank
                  case _ =>
                    intro m p s2 hEq
                    intro hx
                    rw [hmsgstr m p s2 hEq] at hx
                    exact Bool.noConfusion hx
                next s2 lsG hp7 =>
                  rw [parse_msg_nomatch] at hp7
                  · simp at hp7
                  · intro m p s2b hEq
                    intro hx
                    rw [hmsgstr m p s2b hEq] at hx
                    exact Bool.noConfusion hx
              next hnsing => exact absurd rfl hnsing
            case _ =>
              intro m p s2 hEq
              intro hx
              rw [hmidpl m p s2 hEq] at hx
              exact Bool.noConfusion hx
          case _ => rfl
          case _ => exact hconts
          case _ => exact Or.inr ⟨l, rs, rfl, hcont⟩
        case _ =>
          intro m p s2 hEq
          injection hEq with h1 h2 h3 h4
          exact absurd h3 (by decide)
      case _ =>
        intro m p s2 hEq
        injection hEq with h1 h2 h3 h4
        exact absurd h3 (by decide)
    case _ =>
      intro m p s2 hEq
      injection hEq with h1 h2 h3 h4
      exact absurd h3 (by decide)

/-! The claim theorems. -/

/-- Claim C1: the line classifier rejects msgid_plural tag lines. The
alternation of MESSAGE_RE spells the tag msgif_plural, so an unmarked
msgid_plural line matches neither MESSAGE_RE nor COMMENT_RE and is a syntax
failure, while the marked variants degrade to translator comments; only the
misspelled tag itself is accepted as a tag line. -/
theorem c1_msgid_plural_line_rejected :
    parse_po_line "msgid_plural \"texts\"" 1 = .error PUnit.unit ∧
    parse_po_line "#~ msgid_plural \"texts\"" 1 =
      .ok (.Comment 1 ' ' "~ msgid_plural \"texts\"") ∧
    parse_po_line "#| msgid_plural \"texts\"" 1 =
      .ok (.Comment 1 ' ' "| msgid_plural \"texts\"") ∧
    parse_po_line "#~| msgid_plural \"texts\"" 1 =
      .ok (.Comment 1 ' ' "~| msgid_plural \"texts\"") ∧
    parse_po_line "msgif_plural \"texts\"" 1 =
      .ok (.Message 1 "" "msgif_plural" "texts") :=
  ⟨rfl, rfl, rfl, rfl, rfl⟩

/-- Claim C2 (counterexample): after the reader yields an error item, a further
call to next yields another item (the following unit), so the iteration is not
fused on errors. -/
theorem c2_error_then_more_items :
    PoReader.new c2_input = some c2_reader0 ∧
    PoReader.next c2_reader0 =
      some (some (.error (.Parse 1 (some "bogus line") [])), c2_reader1) ∧
    PoReader.next c2_reader1 = some (some (.ok c2_unit), c2_reader2) :=
  ⟨rfl, rfl, rfl⟩

/-- Claim C2 (amended): once the reader is exhausted (its read-ahead is empty),
every call to next yields no item and leaves the reader unchanged; after a
yielded error item, however, subsequent calls may yield further items. -/
theorem c2_exhausted_reader_fuse (r : PoReader) (h : r._next_unit = none) :
    PoReader.next r = some (none, r) := by
  simp [PoReader.next, h]

/-- Witness for the amended C2 at a concrete exhausted reader. -/
theorem c2_exhausted_reader_fuse_witness :
    PoReader.next c2_reader2 = some (none, c2_reader2) :=
  c2_exhausted_reader_fuse c2_reader2 rfl

/-- Claim C3 (counterexample): when the input ends immediately after the msgid
block, the reader yields nothing at all, not a Parse error naming msgstr. -/
theorem c3_eof_after_msgid_yields_nothing :
    PoReader.new c3_input = some c3_reader ∧
    c3_reader._next_unit = none ∧
    PoReader.next c3_reader = some (none, c3_reader) :=
  ⟨rfl, rfl, rfl⟩

/-- Witness for the amended C3: a msgid line followed by a flag comment gives a
Parse error expecting msgstr at the comment's line, with the comment marker as
the found text. -/
theorem c3_missing_msgstr_witness :
    parse_unit [] [.ok (.Message 1 "" "msgid" "a"), .ok (.Comment 4 ',' "flags")] =
      some (.error (.Parse 4 (some "#,") ["msgstr"]), [.ok (.Comment 4 ',' "flags")]) := by
  have h := (c3_missing_msgstr [] 1 "a" [] (by intro x hx; simp at hx)).2
    (.Comment 4 ',' "flags") []
    (by intro hx; cases hx)
    (fun m t2 hx => PoLine.noConfusion hx)
    (fun m p t2 hx => PoLine.noConfusion hx)
    (fun m p t2 hx => PoLine.noConfusion hx)
  exact h

/-- Claim C4 (counterexample): for a tag-line lookahead the expectation error
does not report the tag name; it reports the marker field, here the empty
string rather than msgctxt. -/
theorem c4_found_is_marker_not_tag :
    expected ["msgid"] [.ok (.Message 5 "" "msgctxt" "x")] =
      some (.error (.Parse 5 (some "") ["msgid"])) ∧ ("" : String) ≠ "msgctxt" :=
  ⟨rfl, by decide⟩

/-- Claim C4 (amended): the expectation-error operation reports, for a tag-line
lookahead, the line's marker field (possibly empty) as the found text; for a
continuation a literal double quote; for a comment the hash plus its kind
character; it always carries the given expected names, and it returns the clean
end of the catalogue exactly when the stream is exhausted. -/
theorem c4_expected_found_token (exp : List String) :
    (∀ n p t s ls, expected exp (.ok (.Message n p t s) :: ls) =
      some (.error (.Parse n (some p) exp))) ∧
    (∀ n q s2 ls, expected exp (.ok (.Continuation n q s2) :: ls) =
      some (.error (.Parse n (some "\"") exp))) ∧
    (∀ n k s2 ls, expected exp (.ok (.Comment n k s2) :: ls) =
      some (.error (.Parse n (some ("#" ++ k.toString)) exp))) ∧
    (∀ ls, expected exp ls = some (.ok none) ↔ ls = []) := by
  refine ⟨fun n p t s ls => rfl, fun n q s2 ls => rfl, fun n k s2 ls => rfl, fun ls => ?_⟩
  constructor
  · intro h
    match ls, h with
    | [], _ => rfl
    | .error e :: tl, h => exact absurd h (by simp [expected])
    | .ok (.Message n p t s) :: tl, h => exact absurd h (by simp [expected])
    | .ok (.Continuation n q s) :: tl, h => exact absurd h (by simp [expected])
    | .ok (.Comment n k s) :: tl, h => exact absurd h (by simp [expected])
    | .ok .Blank :: tl, h => exact absurd h (by simp [expected])
  · intro h
    subst h
    rfl

/-- Claim C5: the unescape step rewrites only the leftmost escape sequence of
the string, because the source calls Regex::replace rather than
Regex::replace_all; the five escapes are decoded when they are that leftmost
match, every later escape passes through unchanged, a trailing lone backslash
passes through, and the classifier propagates this behaviour to quoted
bodies. -/
theorem c5_unescape_first_only :
    unescape "\\n\\n" = "\n\\n" ∧
    unescape "a\\tb" = "a\tb" ∧
    unescape "\\r" = "\r" ∧
    unescape "\\\"" = "\"" ∧
    unescape "\\\\x\\n" = "\\x\\n" ∧
    unescape "x\\" = "x\\" ∧
    parse_po_line "msgid \"\\n\\n\"" 1 = .ok (.Message 1 "" "msgid" "\n\\n") :=
  ⟨rfl, rfl, rfl, rfl, rfl, rfl, rfl⟩

/-- Claim C6: the state of every successfully parsed unit is NeedsWork exactly
when its leading flag comments list fuzzy; otherwise it is Final when the
target is not blank and Empty when the target is fully blank. -/
theorem c6_state_derivation (plurals : List Count) (ls : List (Except Error PoLine))
    (u : Unit) (rest : List (Except Error PoLine))
    (h : parse_unit plurals ls = some (.ok (some u), rest)) :
    u._state = (if leadingFuzzy ls then State.NeedsWork
                else if u._target.is_blank then State.Empty else State.Final) := by
  obtain ⟨ls1, u1, hpc, hsrc, hst⟩ := parse_unit_ok_shape plurals ls u rest h
  have h1 := parse_comments_state ls Unit.default ls1 u1 hpc
  rw [h1] at hst
  cases hLF : leadingFuzzy ls <;> cases hb : u._target.is_blank <;>
    simp [hLF, hb, Unit.default] at hst ⊢ <;> exact hst

/-- Witness for C6 at a concrete fuzzy unit. -/
theorem c6_state_derivation_witness :
    c6_unit._state = (if leadingFuzzy c6_stream then State.NeedsWork
                      else if c6_unit._target.is_blank then State.Empty else State.Final) :=
  c6_state_derivation [] c6_stream c6_unit [] rfl

/-- Claim C7: a successful first unit with blank singular source is absorbed as
the header and never yielded; its target text is parsed into key/value pairs
split at the first colon with both sides trimmed and later duplicates
overwriting earlier ones; the Language key yields the target language, cs for
the body used here, and without a Language key the language stays invariant.
The Language-tag parser itself belongs to the external locale_config crate and
is modelled from the spec as accepting every tag. -/
theorem c7_header_extraction :
    PoReader.new c7_input = some c7_reader ∧
    target_language c7_reader = "cs" ∧
    hmGet "A" c7_reader._header = some "2" ∧
    hmGet "Language" c7_reader._header = some "cs" ∧
    PoReader.next c7_reader = some (some (.ok c7_unit), c7_reader2) ∧
    PoReader.next c7_reader2 = some (none, c7_reader2) ∧
    PoReader.new c7b_input = some c7b_reader ∧
    target_language c7b_reader = LanguageRange.invariant :=
  ⟨rfl, rfl, rfl, rfl, rfl, rfl, rfl, rfl⟩

/-- Claim C8: the tag-consuming operation on an empty stream yields no text; on
a classified lookahead that is not a message tag with the requested name and a
matching obsolete marker it yields no text and leaves the stream untouched; on
a matching tag it consumes the tag and every immediately following continuation
whose marker equals the tag's marker exactly, returning the in-order
concatenation of the texts, and leaves exactly the remainder. -/
theorem c8_consume_tag (tag : String) (u : Unit) :
    (parse_msg tag u [] = (.ok none, [])) ∧
    (∀ l ls, (∀ m p s, l = PoLine.Message m p tag s → strStarts p "#~" ≠ u._obsolete) →
      parse_msg tag u (.ok l :: ls) = (.ok none, .ok l :: ls)) ∧
    (∀ n p s conts rest, strStarts p "#~" = u._obsolete →
      (∀ x ∈ conts, ∃ m t, x = .ok (.Continuation m p t)) →
      (rest = [] ∨ ∃ l rs, rest = .ok l :: rs ∧ ∀ m t2, l ≠ .Continuation m p t2) →
      parse_msg tag u (.ok (.Message n p tag s) :: (conts ++ rest)) =
        (.ok (some (s ++ contConcat conts)), rest)) := by
  refine ⟨rfl, ?_, ?_⟩
  · intro l ls h
    exact parse_msg_nomatch tag u l ls h
  · intro n p s conts rest hp hconts hrest
    exact parse_msg_match tag u n p s conts rest hp hconts hrest

/-- Witness for C8: a msgid tag followed by one matching continuation
concatenates both texts; a msgstr probe on the same stream consumes nothing. -/
theorem c8_consume_tag_witness :
    parse_msg "msgid" Unit.default
      (.ok (.Message 1 "" "msgid" "a") :: ([.ok (.Continuation 2 "" "b")] ++ [])) =
      (.ok (some ("a" ++ contConcat [.ok (.Continuation 2 "" "b")])), []) ∧
    parse_msg "msgstr" Unit.default
      (.ok (.Message 1 "" "msgid" "a") :: [.ok (.Continuation 2 "" "b")]) =
      (.ok none, .ok (.Message 1 "" "msgid" "a") :: [.ok (.Continuation 2 "" "b")]) := by
  constructor
  · exact (c8_consume_tag "msgid" Unit.default).2.2 1 "" "a"
      [.ok (.Continuation 2 "" "b")] [] rfl
      (by intro x hx; simp at hx; subst hx; exact ⟨2, "b", rfl⟩)
      (Or.inl rfl)
  · exact (c8_consume_tag "msgstr" Unit.default).2.1 (.Message 1 "" "msgid" "a")
      [.ok (.Continuation 2 "" "b")]
      (by intro m p s hEq; injection hEq with h1 h2 h3 h4; exact absurd h3 (by decide))

/-- Claim C9: for every raw input, parsing a unit never hits a panic (in
particular the defensive assertion at the end of unit assembly never fires),
and every successfully produced unit has a non-Empty source, because a msgid
tag is required before the unit is built. -/
theorem c9_source_never_empty (plurals : List Count) (input : List (Except Nat String)) :
    (parse_unit plurals (line_items 0 input)).isSome = true ∧
    (∀ u rest, parse_unit plurals (line_items 0 input) = some (.ok (some u), rest) →
      u._source.is_empty = false) := by
  constructor
  · exact parse_unit_isSome plurals (line_items 0 input) (line_items_wf input 0)
  · intro u rest h
    obtain ⟨ls1, u1, hpc, hsrc, hst⟩ :=
      parse_unit_ok_shape plurals (line_items 0 input) u rest h
    exact hsrc

/-- Witness for C9 at a concrete two-line unit. -/
theorem c9_source_never_empty_witness :
    (⟨none, .Singular "a", .Singular "b", none, .Empty, [], [], .Final, false⟩ :
      Unit)._source.is_empty = false :=
  (c9_source_never_empty [] c9_input).2
    ⟨none, .Singular "a", .Singular "b", none, .Empty, [], [], .Final, false⟩ [] rfl

/-- Claim C10: when the remaining classified lines are comments only, the next
unit request consumes them all and reports the clean end of the catalogue,
discarding the notes, locations and fuzzy state accumulated from them. -/
theorem c10_trailing_comments (plurals : List Count) (ls : List (Except Error PoLine))
    (h : ∀ x ∈ ls, ∃ n k s, x = .ok (.Comment n k s) ∧
      (k = ' ' ∨ k = ':' ∨ k = '.' ∨ k = ',')) :
    parse_unit plurals ls = some (.ok none, []) := by
  obtain ⟨u2, hpc⟩ := parse_comments_all ls Unit.default h
  simp only [parse_unit, hpc]

/-- Witness for C10 at two concrete trailing comments, one of them a fuzzy
flag. -/
theorem c10_trailing_comments_witness :
    parse_unit [] [.ok (.Comment 1 ' ' "hi"), .ok (.Comment 2 ',' "fuzzy")] =
      some (.ok none, []) := by
  refine c10_trailing_comments [] _ ?_
  intro x hx
  simp at hx
  rcases hx with h | h <;> subst h
  · exact ⟨1, ' ', "hi", rfl, Or.inl rfl⟩
  · exact ⟨2, ',', "fuzzy", rfl, by simp⟩

end Po

